import Mathlib

/-!
Shallow embedding of the Midi2Chiptune converter (src/rust/midi2chiptune/src/main.rs).

Modelling conventions:
* Machine bytes and integers (`u8`, `u16`, `u32`) are `ℕ`, with an explicit
  `% 2 ^ 32` (resp. `% 2 ^ 16`) where the Rust code can wrap.
* `f64` values are modelled as `ℚ`; the Rust `%` on floats (remainder with the
  sign of the dividend) and the saturating `as usize` / `as i16` casts are
  modelled explicitly below.
* Functions that can panic through an out-of-bounds slice or index are given a
  `PResult` return type with an explicit `panic` outcome.
* Buffers are `List ℕ`; the mutable cursor `pos : &mut usize` becomes an extra
  argument and an extra component of the result.
-/

/-- Outcome of a Rust function returning `Result`, with Rust panics made explicit. -/
inductive PResult (α : Type) : Type where
  | ok : α → PResult α
  | err : String → PResult α
  | panic : PResult α
deriving DecidableEq, Repr

/-- `MidiEvent` from the source: note on/off, program change, or unhandled. -/
inductive MidiEvent : Type where
  | noteOn : ℕ → ℕ → ℕ → ℕ → MidiEvent      -- channel, note, velocity, time
  | noteOff : ℕ → ℕ → ℕ → MidiEvent          -- channel, note, time
  | programChange : ℕ → ℕ → ℕ → MidiEvent    -- channel, program, time
  | unknown : MidiEvent
deriving DecidableEq, Repr

/-- `MidiTrack`: the list of events of one track chunk. -/
structure MidiTrack : Type where
  events : List MidiEvent
deriving DecidableEq, Repr

/-- `MidiFile`: header fields plus the parsed tracks. -/
structure MidiFile : Type where
  format : ℕ
  track_count : ℕ
  ticks_per_quarter : ℕ
  tracks : List MidiTrack
deriving DecidableEq, Repr

/-- `Note`: an assembled note with times in seconds (`f64` modelled as `ℚ`). -/
structure Note : Type where
  midi_note : ℕ
  channel : ℕ
  start_time : ℚ
  duration : ℚ
  velocity : ℕ
deriving DecidableEq, Repr

/-- The loop of `read_vlq`: accumulates 7 bits per byte into a `u32`, returning
the decoded value (or the EOF error) together with the final cursor position. -/
def read_vlq.go (data : List ℕ) (pos : ℕ) (value : ℕ) : Except String ℕ × ℕ :=
  if h : pos < data.length then
    let byte := data[pos]
    let value2 := ((value <<< 7) % 2 ^ 32) ||| (byte &&& 0x7F)
    if byte &&& 0x80 = 0 then (Except.ok value2, pos + 1)
    else read_vlq.go data (pos + 1) value2
  else (Except.error "Unexpected end of data while reading VLQ", pos)
termination_by data.length - pos

/-- `read_vlq`: variable-length-quantity decoder, starting from accumulator 0. -/
def read_vlq (data : List ℕ) (pos : ℕ) : Except String ℕ × ℕ :=
  read_vlq.go data pos 0

theorem read_vlq_go_pos_le (data : List ℕ) :
    ∀ n pos value, data.length - pos ≤ n →
      pos ≤ (read_vlq.go data pos value).2 := by
  intro n
  induction n with
  | zero =>
      intro pos value h
      rw [read_vlq.go]
      have : ¬ pos < data.length := by omega
      simp [this]
  | succ n ih =>
      intro pos value h
      rw [read_vlq.go]
      by_cases hp : pos < data.length
      · simp only [hp, dif_pos]
        by_cases hb : data[pos] &&& 0x80 = 0
        · simp [hb]
        · simp only [hb, if_neg, ite_false]
          have := ih (pos + 1) (((value <<< 7) % 2 ^ 32) ||| (data[pos] &&& 0x7F))
            (by omega)
          omega
      · simp [hp]

theorem read_vlq_go_ok_lt (data : List ℕ) :
    ∀ n pos value v, data.length - pos ≤ n →
      (read_vlq.go data pos value).1 = Except.ok v →
      pos < (read_vlq.go data pos value).2 := by
  intro n
  induction n with
  | zero =>
      intro pos value v h hok
      rw [read_vlq.go] at hok ⊢
      have : ¬ pos < data.length := by omega
      simp [this] at hok
  | succ n ih =>
      intro pos value v h hok
      rw [read_vlq.go] at hok ⊢
      by_cases hp : pos < data.length
      · simp only [hp, dif_pos] at hok ⊢
        by_cases hb : data[pos] &&& 0x80 = 0
        · simp [hb]
        · simp only [hb, if_neg, ite_false] at hok ⊢
          have h1 := ih (pos + 1) (((value <<< 7) % 2 ^ 32) ||| (data[pos] &&& 0x7F))
            v (by omega) hok
          omega
      · simp [hp] at hok

theorem read_vlq_pos_le (data : List ℕ) (pos : ℕ) :
    pos ≤ (read_vlq data pos).2 :=
  read_vlq_go_pos_le data (data.length - pos) pos 0 le_rfl

theorem read_vlq_ok_lt (data : List ℕ) (pos : ℕ) (v : ℕ)
    (h : (read_vlq data pos).1 = Except.ok v) :
    pos < (read_vlq data pos).2 :=
  read_vlq_go_ok_lt data (data.length - pos) pos 0 v le_rfl h

/-- If every byte from `pos` on has its high bit set, the VLQ loop reaches the
end of the buffer and reports the EOF error. -/
theorem read_vlq_go_eof (data : List ℕ) :
    ∀ n pos value, data.length - pos ≤ n →
      (∀ i (hi : i < data.length), pos ≤ i → data[i] &&& 0x80 ≠ 0) →
      (read_vlq.go data pos value).1 =
        Except.error "Unexpected end of data while reading VLQ" := by
  intro n
  induction n with
  | zero =>
      intro pos value h hall
      rw [read_vlq.go]
      have : ¬ pos < data.length := by omega
      simp [this]
  | succ n ih =>
      intro pos value h hall
      rw [read_vlq.go]
      by_cases hp : pos < data.length
      · simp only [hp, dif_pos]
        have hb := hall pos hp le_rfl
        simp only [hb, if_neg, ite_false]
        exact ih (pos + 1) _ (by omega) (fun i hi hle => hall i hi (by omega))
      · simp [hp]

/-- `read_be_u16`: big-endian 16-bit read; `none` models the Rust index panic. -/
def read_be_u16 (data : List ℕ) (pos : ℕ) : Option (ℕ × ℕ) :=
  if pos + 2 ≤ data.length then
    some (data.getD pos 0 * 2 ^ 8 + data.getD (pos + 1) 0, pos + 2)
  else none

/-- `read_be_u32`: big-endian 32-bit read; `none` models the Rust index panic. -/
def read_be_u32 (data : List ℕ) (pos : ℕ) : Option (ℕ × ℕ) :=
  if pos + 4 ≤ data.length then
    some (data.getD pos 0 * 2 ^ 24 + data.getD (pos + 1) 0 * 2 ^ 16 +
      data.getD (pos + 2) 0 * 2 ^ 8 + data.getD (pos + 3) 0, pos + 4)
  else none

/-- `read_midi_header`: checks the ASCII magic and the chunk length, then reads
format, track count and ticks-per-quarter.  The result carries the new cursor. -/
def read_midi_header (data : List ℕ) (pos : ℕ) : PResult ((ℕ × ℕ × ℕ) × ℕ) :=
  if data.length < pos + 4 then PResult.panic
  else if (data.drop pos).take 4 ≠ [0x4D, 0x54, 0x68, 0x64] then
    PResult.err "Invalid MIDI header"
  else
    match read_be_u32 data (pos + 4) with
    | none => PResult.panic
    | some (chunk_length, pos1) =>
      if chunk_length ≠ 6 then PResult.err "Invalid MIDI header chunk length"
      else
        match read_be_u16 data pos1 with
        | none => PResult.panic
        | some (format, pos2) =>
          match read_be_u16 data pos2 with
          | none => PResult.panic
          | some (track_count, pos3) =>
            match read_be_u16 data pos3 with
            | none => PResult.panic
            | some (ticks_per_quarter, pos4) =>
              PResult.ok ((format, track_count, ticks_per_quarter), pos4)

/-- `parse_midi_event`: decodes one event at `pos` with the running-status
convention; returns the event, the new cursor and the new running status. -/
def parse_midi_event (data : List ℕ) (pos : ℕ) (running_status : ℕ)
    (delta_time : ℕ) : MidiEvent × ℕ × ℕ :=
  if pos < data.length then
    let first_byte := data.getD pos 0
    let status := if 0x80 ≤ first_byte then first_byte else running_status
    let pos1 := if 0x80 ≤ first_byte then pos + 1 else pos
    let event_type := status &&& 0xF0
    let channel := status &&& 0x0F
    if event_type = 0x90 then
      if data.length ≤ pos1 + 1 then (MidiEvent.unknown, pos1, status)
      else
        let note := data.getD pos1 0
        let velocity := data.getD (pos1 + 1) 0
        if velocity = 0 then (MidiEvent.noteOff channel note delta_time, pos1 + 2, status)
        else (MidiEvent.noteOn channel note velocity delta_time, pos1 + 2, status)
    else if event_type = 0x80 then
      if data.length ≤ pos1 + 1 then (MidiEvent.unknown, pos1, status)
      else (MidiEvent.noteOff channel (data.getD pos1 0) delta_time, pos1 + 2, status)
    else if event_type = 0xC0 then
      if data.length ≤ pos1 then (MidiEvent.unknown, pos1, status)
      else (MidiEvent.programChange channel (data.getD pos1 0) delta_time, pos1 + 1, status)
    else
      if status = 0xFF then
        if data.length ≤ pos1 then (MidiEvent.unknown, pos1, status)
        else
          -- the VLQ read advances the cursor in both outcomes; on success the
          -- decoded length is additionally skipped
          let vr := read_vlq data (pos1 + 1)
          let skip := match vr.1 with
            | Except.ok len2 => len2
            | Except.error _ => 0
          (MidiEvent.unknown, vr.2 + skip, status)
      else if 0x80 ≤ status then
        if pos1 < data.length then
          if (status &&& 0xE0) ≠ 0xC0 ∧ (status &&& 0xE0) ≠ 0xD0 then
            if pos1 + 1 < data.length then (MidiEvent.unknown, pos1 + 2, status)
            else (MidiEvent.unknown, pos1 + 1, status)
          else (MidiEvent.unknown, pos1 + 1, status)
        else (MidiEvent.unknown, pos1, status)
      else (MidiEvent.unknown, pos1, status)
  else (MidiEvent.unknown, pos, running_status)

-- Cursor monotonicity, needed for termination of the track event loop below.
theorem parse_midi_event_pos_le (data : List ℕ) (pos rs dt : ℕ) :
    pos ≤ (parse_midi_event data pos rs dt).2.1 := by
  have h1 := read_vlq_pos_le data (pos + 1 + 1)
  have h2 := read_vlq_pos_le data (pos + 1)
  rw [parse_midi_event]
  by_cases hp : pos < data.length
  · simp only [hp, if_pos]
    by_cases hfb : 0x80 ≤ data.getD pos 0 <;>
      simp only [hfb, if_pos, if_neg, ite_true, ite_false, not_le] <;>
      split_ifs <;> (try simp only []) <;> omega
  · simp [hp]

/-- The event loop of `read_midi_track`: reads `(delta-time, event)` pairs while
the cursor stays below both the chunk end and the buffer end, dropping
`Unknown` events; stops early when a VLQ read fails. -/
def read_track_events (data : List ℕ) (end_position : ℕ) (pos : ℕ)
    (running_status : ℕ) : List MidiEvent × ℕ :=
  if pos < end_position ∧ pos < data.length then
    match hv : read_vlq data pos with
    | (Except.error _, p) => ([], p)
    | (Except.ok delta, pos1) =>
      let pe := parse_midi_event data pos1 running_status delta
      let rest := read_track_events data end_position pe.2.1 pe.2.2
      (if pe.1 = MidiEvent.unknown then rest.1 else pe.1 :: rest.1, rest.2)
  else ([], pos)
termination_by data.length - pos
decreasing_by
  have h1 : pos < pos1 := by
    have := read_vlq_ok_lt data pos delta (by rw [hv])
    rw [hv] at this
    exact this
  have h2 := parse_midi_event_pos_le data pos1 running_status delta
  omega

/-- `read_midi_track`: checks the ASCII track magic (without panicking, thanks
to the length guard), reads the chunk length, then runs the event loop. -/
def read_midi_track (data : List ℕ) (pos : ℕ) : PResult (MidiTrack × ℕ) :=
  if data.length < pos + 4 ∨ (data.drop pos).take 4 ≠ [0x4D, 0x54, 0x72, 0x6B] then
    PResult.err "Invalid MIDI track header"
  else
    match read_be_u32 data (pos + 4) with
    | none => PResult.panic
    | some (chunk_length, pos1) =>
      let r := read_track_events data (pos1 + chunk_length) pos1 0
      PResult.ok (MidiTrack.mk r.1, r.2)

/-- The track loop of `read_midi_file`: attempts `track_count` track reads; a
failed read is skipped (its track is not pushed) and the loop simply continues
from the same cursor; a panic aborts everything. -/
def read_tracks (data : List ℕ) : ℕ → ℕ → PResult (List MidiTrack × ℕ)
  | pos, 0 => PResult.ok ([], pos)
  | pos, n + 1 =>
    match read_midi_track data pos with
    | PResult.panic => PResult.panic
    | PResult.err _ =>
      match read_tracks data pos n with
      | PResult.ok (rest, p) => PResult.ok (rest, p)
      | r => r
    | PResult.ok (tr, pos1) =>
      match read_tracks data pos1 n with
      | PResult.ok (rest, p) => PResult.ok (tr :: rest, p)
      | r => r

/-- `read_midi_file` after the operating-system read: parses the header at
cursor 0, then attempts `track_count` track reads. -/
def read_midi_file_bytes (data : List ℕ) : PResult MidiFile :=
  match read_midi_header data 0 with
  | PResult.panic => PResult.panic
  | PResult.err e => PResult.err e
  | PResult.ok ((format, track_count, ticks_per_quarter), pos) =>
    match read_tracks data pos track_count with
    | PResult.panic => PResult.panic
    | PResult.err e => PResult.err e
    | PResult.ok (tracks, _) =>
      PResult.ok (MidiFile.mk format track_count ticks_per_quarter tracks)

/-- `tick as f64 / ticks_per_quarter as f64 * 60.0 / tempo` from `events_to_notes`. -/
def ticks_to_seconds (ticks_per_quarter : ℕ) (tempo : ℚ) (tick : ℕ) : ℚ :=
  (tick : ℚ) / (ticks_per_quarter : ℚ) * 60 / tempo

/-- The `note_on_events` map: `(channel, note) -> (velocity, start_time)`. -/
def PendingMap : Type := ℕ × ℕ → Option (ℕ × ℚ)

/-- One step of the event loop in `events_to_notes`, acting on
`(current_tick, note_on_events, notes)`.  The tick counter is a `u32` and wraps. -/
def events_to_notes_step (ticks_per_quarter : ℕ) (tempo : ℚ)
    (st : ℕ × PendingMap × List Note) (e : MidiEvent) : ℕ × PendingMap × List Note :=
  match e with
  | MidiEvent.noteOn channel note velocity time =>
    let tick := (st.1 + time) % 2 ^ 32
    let start_time := ticks_to_seconds ticks_per_quarter tempo tick
    (tick, fun k => if k = (channel, note) then some (velocity, start_time) else st.2.1 k,
      st.2.2)
  | MidiEvent.noteOff channel note time =>
    let tick := (st.1 + time) % 2 ^ 32
    let end_time := ticks_to_seconds ticks_per_quarter tempo tick
    match st.2.1 (channel, note) with
    | some (velocity, start_time) =>
      let duration := end_time - start_time
      (tick, fun k => if k = (channel, note) then none else st.2.1 k,
        if 0 < duration then
          st.2.2 ++ [Note.mk note channel start_time duration velocity]
        else st.2.2)
    | none => (tick, st.2.1, st.2.2)
  | _ => st

/-- `events_to_notes`: the pending-note map and the note list live outside the
track loop (shared across tracks); `current_tick` restarts at 0 per track. -/
def events_to_notes (midi_file : MidiFile) (tempo : ℚ) : List Note :=
  (midi_file.tracks.foldl
    (fun (st : PendingMap × List Note) track =>
      let r := track.events.foldl
        (events_to_notes_step midi_file.ticks_per_quarter tempo) (0, st.1, st.2)
      (r.2.1, r.2.2))
    ((fun _ => none), [])).2

/-- `DutyCycle` and its `value()` table. -/
inductive DutyCycle : Type where
  | duty12_5 : DutyCycle
  | duty25 : DutyCycle
  | duty50 : DutyCycle
  | duty75 : DutyCycle
deriving DecidableEq, Repr

def DutyCycle.value : DutyCycle → ℚ
  | DutyCycle.duty12_5 => 0.125
  | DutyCycle.duty25 => 0.25
  | DutyCycle.duty50 => 0.5
  | DutyCycle.duty75 => 0.75

/-- Truncation toward zero, as used by Rust float-to-integer conversions
and by the float remainder operator. -/
def truncQ (x : ℚ) : ℤ :=
  if 0 ≤ x then ⌊x⌋ else ⌈x⌉

/-- Rust `x % 1.0` on `f64`: remainder keeping the sign of the dividend. -/
def rustMod1 (x : ℚ) : ℚ :=
  x - truncQ x

/-- Rust `as usize` on a (finite) `f64`: truncate toward zero, saturating at 0
for negative inputs. -/
def f64_to_usize (x : ℚ) : ℕ :=
  (⌊x⌋).toNat

/-- Rust `f64::clamp(self, lo, hi)` for non-NaN inputs. -/
def rustClamp (s lo hi : ℚ) : ℚ :=
  if s < lo then lo else if hi < s then hi else s

/-- Rust `as i16` on a (finite) `f64`: truncate toward zero, saturating at the
`i16` range. -/
def f64_to_i16 (x : ℚ) : ℤ :=
  max (-32768) (min 32767 (truncQ x))

/-- `generate_square_wave`: `floor(sample_rate * duration)` samples; sample `i`
is `+1` when the phase `(i / rate * frequency) mod 1` is below the duty value. -/
def generate_square_wave (frequency : ℚ) (duty : DutyCycle) (sample_rate : ℕ)
    (duration : ℚ) : List ℚ :=
  let samples := f64_to_usize ((sample_rate : ℚ) * duration)
  let duty_value := duty.value
  (List.range samples).map (fun (i : ℕ) =>
    let t := (i : ℚ) / (sample_rate : ℚ)
    let phase := rustMod1 (t * frequency)
    if phase < duty_value then 1 else -1)

/-- One step of the 15-bit LFSR in `generate_noise`: returns the updated
register and the emitted sample (`+1` iff bit 0 is set). -/
def lfsr_step (is_short : Bool) (shift : ℕ) : ℕ × ℚ :=
  let bit0 := shift &&& 1
  let bit1 := if is_short then (shift >>> 6) &&& 1 else (shift >>> 1) &&& 1
  let feedback := bit0 ^^^ bit1
  ((shift >>> 1) ||| (feedback <<< 14), if bit0 = 1 then 1 else -1)

/-- The sample loop of `generate_noise`, threading the shift register. -/
def noise_go (is_short : Bool) (shift : ℕ) : ℕ → List ℚ
  | 0 => []
  | n + 1 =>
    let r := lfsr_step is_short shift
    r.2 :: noise_go is_short r.1 n

/-- `generate_noise`: the register is a local, re-seeded to `1` on every call. -/
def generate_noise (is_short : Bool) (sample_rate : ℕ) (duration : ℚ) : List ℚ :=
  noise_go is_short 1 (f64_to_usize ((sample_rate : ℚ) * duration))

/-- `mix_waveforms`: elementwise sum over all buffers (missing entries read 0)
divided by the number of buffers; empty input short-circuits to the empty list. -/
def mix_waveforms (waveforms : List (List ℚ)) : List ℚ :=
  if waveforms = [] then []
  else
    let max_length := (waveforms.map List.length).foldr max 0
    let num_waveforms := (waveforms.length : ℚ)
    (List.range max_length).map (fun i =>
      (waveforms.map (fun w => if i < w.length then w.getD i 0 else 0)).sum /
        num_waveforms)

/-- `convert_to_16bit`: clamp to `[-1, 1]`, scale by `32767`, cast with `as i16`. -/
def convert_to_16bit (samples : List ℚ) : List ℤ :=
  samples.map (fun s => f64_to_i16 (rustClamp s (-1) 1 * 32767))

/-- Concrete byte buffer: a valid 14-byte header announcing two tracks, an
invalid track chunk (bad magic, zero declared length), then a fully valid
`MTrk` chunk holding one NoteOn event. -/
def sample_midi_bytes : List ℕ :=
  [0x4D, 0x54, 0x68, 0x64, 0, 0, 0, 6, 0, 0, 0, 2, 0, 96] ++
  [0x58, 0x58, 0x58, 0x58, 0, 0, 0, 0] ++
  [0x4D, 0x54, 0x72, 0x6B, 0, 0, 0, 4, 0, 0x90, 60, 100]

-- Helper facts used to evaluate the well-founded event loop on the sample
-- buffer, and general lemmas shared by the claim theorems below.

set_option maxRecDepth 8000 in
theorem read_vlq_sample_30 : read_vlq sample_midi_bytes 30 = (Except.ok 0, 31) := by
  rw [read_vlq, read_vlq.go]
  norm_num [sample_midi_bytes]

set_option maxRecDepth 8000 in
theorem parse_midi_event_sample_31 :
    parse_midi_event sample_midi_bytes 31 0 0 = (MidiEvent.noteOn 0 60 100 0, 34, 0x90) := by
  rw [parse_midi_event]
  norm_num [sample_midi_bytes]
  decide

theorem read_track_events_sample_34 :
    read_track_events sample_midi_bytes 34 34 0x90 = ([], 34) := by
  rw [read_track_events.eq_def]
  norm_num

theorem read_midi_track_sample_22 :
    read_midi_track sample_midi_bytes 22 =
      PResult.ok (MidiTrack.mk [MidiEvent.noteOn 0 60 100 0], 34) := by
  rw [read_midi_track]
  rw [if_neg (by decide)]
  have hbe : read_be_u32 sample_midi_bytes 26 = some (4, 30) := by decide
  rw [hbe]
  simp only []
  rw [read_track_events.eq_def]
  rw [if_pos (by decide)]
  split
  · rename_i a p heq
    rw [read_vlq_sample_30] at heq
    simp at heq
  · rename_i delta pos1 heq
    rw [read_vlq_sample_30] at heq
    simp only [Prod.mk.injEq, Except.ok.injEq] at heq
    obtain ⟨h1, h2⟩ := heq
    subst h1
    subst h2
    norm_num [parse_midi_event_sample_31, read_track_events_sample_34]
    decide

theorem ticks_to_seconds_lt (ticks_per_quarter : ℕ) (tempo : ℚ) (a b : ℕ)
    (h1 : 0 < ticks_per_quarter) (h2 : 0 < tempo) (hab : a < b) :
    ticks_to_seconds ticks_per_quarter tempo a <
      ticks_to_seconds ticks_per_quarter tempo b := by
  unfold ticks_to_seconds
  have htpq : (0 : ℚ) < (ticks_per_quarter : ℚ) := by exact_mod_cast h1
  have hab2 : (a : ℚ) < (b : ℚ) := by exact_mod_cast hab
  gcongr

theorem events_to_notes_step_duration_pos (tpq : ℕ) (tempo : ℚ)
    (st : ℕ × PendingMap × List Note) (e : MidiEvent)
    (h : ∀ nt ∈ st.2.2, 0 < nt.duration) :
    ∀ nt ∈ (events_to_notes_step tpq tempo st e).2.2, 0 < nt.duration := by
  cases e with
  | noteOn channel note velocity time => simpa [events_to_notes_step] using h
  | noteOff channel note time =>
      intro nt hnt
      simp only [events_to_notes_step] at hnt
      rcases hlk : st.2.1 (channel, note) with _ | ⟨velocity, start_time⟩
      · rw [hlk] at hnt
        exact h nt hnt
      · rw [hlk] at hnt
        simp only [] at hnt
        split_ifs at hnt with hd
        · rcases List.mem_append.mp hnt with hmem | hmem
          · exact h nt hmem
          · have : nt = Note.mk note channel start_time
                (ticks_to_seconds tpq tempo ((st.1 + time) % 2 ^ 32) - start_time)
                velocity := by simpa using hmem
            rw [this]
            exact hd
        · exact h nt hnt
  | programChange channel program time => simpa [events_to_notes_step] using h
  | unknown => simpa [events_to_notes_step] using h

theorem foldl_events_duration_pos (tpq : ℕ) (tempo : ℚ) :
    ∀ (events : List MidiEvent) (st : ℕ × PendingMap × List Note),
      (∀ nt ∈ st.2.2, 0 < nt.duration) →
      ∀ nt ∈ (events.foldl (events_to_notes_step tpq tempo) st).2.2, 0 < nt.duration := by
  intro events
  induction events with
  | nil => intro st h; simpa using h
  | cons e es ih =>
      intro st h
      exact ih _ (events_to_notes_step_duration_pos tpq tempo st e h)

theorem foldl_tracks_duration_pos (tpq : ℕ) (tempo : ℚ) :
    ∀ (tracks : List MidiTrack) (st : PendingMap × List Note),
      (∀ nt ∈ st.2, 0 < nt.duration) →
      ∀ nt ∈ (tracks.foldl
        (fun (st : PendingMap × List Note) track =>
          let r := track.events.foldl (events_to_notes_step tpq tempo) (0, st.1, st.2)
          (r.2.1, r.2.2)) st).2, 0 < nt.duration := by
  intro tracks
  induction tracks with
  | nil => intro st h; simpa using h
  | cons tr trs ih =>
      intro st h
      exact ih _ (foldl_events_duration_pos tpq tempo tr.events (0, st.1, st.2) h)

theorem noise_go_take (is_s : Bool) :
    ∀ (n m shift : ℕ), n ≤ m →
      (noise_go is_s shift m).take n = noise_go is_s shift n := by
  intro n
  induction n with
  | zero => intro m shift h; simp [noise_go]
  | succ n ih =>
      intro m shift h
      cases m with
      | zero => omega
      | succ m =>
          simp only [noise_go, List.take_succ_cons]
          rw [ih m _ (by omega)]

theorem foldr_max_all_eq :
    ∀ (ws : List (List ℚ)) (n : ℕ), ws ≠ [] → (∀ w ∈ ws, w.length = n) →
      (ws.map List.length).foldr max 0 = n := by
  intro ws
  induction ws with
  | nil => intro n h _; exact absurd rfl h
  | cons w ws ih =>
      intro n _ hall
      have hw : w.length = n := hall w (by simp)
      cases ws with
      | nil => simpa using hw
      | cons w2 ws2 =>
          have hrest := ih n (by simp) (fun x hx => hall x (List.mem_cons_of_mem _ hx))
          simp only [List.map_cons, List.foldr_cons] at hrest ⊢
          rw [hw, hrest]
          exact max_self n

theorem truncQ_clamp_bounds (s : ℚ) :
    -32767 ≤ truncQ (rustClamp s (-1) 1 * 32767) ∧
      truncQ (rustClamp s (-1) 1 * 32767) ≤ 32767 := by
  have hc1 : -1 ≤ rustClamp s (-1) 1 := by
    unfold rustClamp; split_ifs <;> linarith
  have hc2 : rustClamp s (-1) 1 ≤ 1 := by
    unfold rustClamp; split_ifs <;> linarith
  have h1 : rustClamp s (-1) 1 * 32767 ≤ 32767 := by nlinarith
  have h2 : (-32767 : ℚ) ≤ rustClamp s (-1) 1 * 32767 := by nlinarith
  unfold truncQ
  split_ifs with h
  · refine ⟨?_, ?_⟩
    · have h0 : (0 : ℤ) ≤ ⌊rustClamp s (-1) 1 * 32767⌋ := Int.floor_nonneg.mpr h
      omega
    · have hfl : ⌊rustClamp s (-1) 1 * 32767⌋ ≤ ⌊(32767 : ℚ)⌋ := Int.floor_le_floor h1
      norm_num at hfl
      exact hfl
  · refine ⟨?_, ?_⟩
    · have hle : (-32767 : ℚ) ≤ (⌈rustClamp s (-1) 1 * 32767⌉ : ℚ) :=
        le_trans h2 (Int.le_ceil _)
      exact_mod_cast hle
    · push_neg at h
      have h0 : ⌈rustClamp s (-1) 1 * 32767⌉ ≤ (0 : ℤ) :=
        Int.ceil_le.mpr (by exact_mod_cast h.le)
      omega

/-- C4: `read_vlq` decodes big-endian base-128 integers — `[0x81, 0x00]` gives
128, `[0x00]` gives 0, `[0xFF, 0xFF, 0x7F]` gives 2097151 — and on every buffer
whose remaining bytes all have the high bit set (so that no terminating byte is
found before the end), it reports the unexpected-EOF error. -/
theorem c4_read_vlq_decodes_base128 :
    read_vlq [0x81, 0x00] 0 = (Except.ok 128, 2) ∧
    read_vlq [0x00] 0 = (Except.ok 0, 1) ∧
    read_vlq [0xFF, 0xFF, 0x7F] 0 = (Except.ok 2097151, 3) ∧
    ∀ (data : List ℕ) (pos : ℕ),
      (∀ i (hi : i < data.length), pos ≤ i → data[i] &&& 0x80 ≠ 0) →
      (read_vlq data pos).1 =
        Except.error "Unexpected end of data while reading VLQ" := by
  refine ⟨?_, ?_, ?_, ?_⟩
  · simp [read_vlq, read_vlq.go]
    decide
  · simp [read_vlq, read_vlq.go]
  · simp [read_vlq, read_vlq.go]
    rw [if_pos (by decide)]
    simp
    decide
  · intro data pos h
    rw [read_vlq]
    exact read_vlq_go_eof data (data.length - pos) pos 0 le_rfl h

/-- Witness for C4 at the concrete buffer `[0x80]`, which ends before any byte
with a clear high bit. -/
theorem c4_witness :
    (read_vlq [0x80] 0).1 =
      Except.error "Unexpected end of data while reading VLQ" :=
  c4_read_vlq_decodes_base128.2.2.2 [0x80] 0 (by decide)

/-- C5: for a status byte in `0x90..=0x9F` with both data bytes available,
`parse_midi_event` yields `NoteOff` (channel, note, delta-time) when the
velocity byte is 0, and `NoteOn` carrying the nonzero velocity otherwise. -/
theorem c5_note_on_zero_velocity :
    ∀ (data : List ℕ) (pos rs dt st : ℕ),
      data.getD pos 0 = st → 0x90 ≤ st → st ≤ 0x9F → pos + 2 < data.length →
      (parse_midi_event data pos rs dt).1 =
        if data.getD (pos + 2) 0 = 0 then
          MidiEvent.noteOff (st &&& 0x0F) (data.getD (pos + 1) 0) dt
        else
          MidiEvent.noteOn (st &&& 0x0F) (data.getD (pos + 1) 0)
            (data.getD (pos + 2) 0) dt := by
  intro data pos rs dt st hst h90 h9f hlen
  have hp : pos < data.length := by
    by_contra hcon
    have h0 : data.getD pos 0 = 0 := List.getD_eq_default _ _ (by omega)
    omega
  have hfb2 : 0x80 ≤ st := by omega
  have hand : st &&& 0xF0 = 0x90 := by interval_cases st <;> rfl
  have hg : ¬ data.length ≤ pos + 1 + 1 := by omega
  rw [parse_midi_event]
  simp only [hp, hst, hfb2, hand, if_neg hg, if_true, if_false, ite_true, ite_false]
  have e2 : pos + 1 + 1 = pos + 2 := rfl
  rw [e2]
  split_ifs <;> rfl

/-- Witness for C5 at the buffer `[0x95, 60, 0]`: zero velocity becomes a
NoteOff on channel 5. -/
theorem c5_witness :
    (parse_midi_event [0x95, 60, 0] 0 0 7).1 = MidiEvent.noteOff 5 60 7 := by
  have h := c5_note_on_zero_velocity [0x95, 60, 0] 0 0 7 0x95
    (by decide) (by decide) (by decide) (by decide)
  simpa using h

/-- C10: `read_midi_header` is not total: every buffer shorter than 4 bytes
makes the magic-check slice go out of bounds (a panic), and the 8-byte buffer
beginning with "MThd" and a valid length field — shorter than the 14 bytes the
header needs — panics inside the big-endian field reads. -/
theorem c10_header_not_total :
    (∀ data : List ℕ, data.length < 4 → read_midi_header data 0 = PResult.panic) ∧
    ([0x4D, 0x54, 0x68, 0x64, 0, 0, 0, 6] : List ℕ).take 4 = [0x4D, 0x54, 0x68, 0x64] ∧
    ([0x4D, 0x54, 0x68, 0x64, 0, 0, 0, 6] : List ℕ).length < 14 ∧
    read_midi_header [0x4D, 0x54, 0x68, 0x64, 0, 0, 0, 6] 0 = PResult.panic := by
  refine ⟨?_, by decide, by decide, by decide⟩
  intro data h
  rw [read_midi_header]
  rw [if_pos (by omega)]

/-- Witness for C10 at the empty buffer. -/
theorem c10_witness : read_midi_header [] 0 = PResult.panic :=
  c10_header_not_total.1 [] (by decide)

/-- C9: `convert_to_16bit` maps each sample to clamp-to-`[-1,1]`, scale by
32767, truncate toward zero; all outputs lie in `[-32767, 32767]`, so the
`i16` minimum `-32768` is never produced. -/
theorem c9_convert_to_16bit_truncates :
    ∀ samples : List ℚ,
      convert_to_16bit samples =
        samples.map (fun s => truncQ (rustClamp s (-1) 1 * 32767)) ∧
      ∀ x ∈ convert_to_16bit samples, -32767 ≤ x ∧ x ≤ 32767 := by
  intro samples
  have hpt : ∀ s : ℚ, f64_to_i16 (rustClamp s (-1) 1 * 32767) =
      truncQ (rustClamp s (-1) 1 * 32767) := by
    intro s
    have hb := truncQ_clamp_bounds s
    unfold f64_to_i16
    omega
  constructor
  · unfold convert_to_16bit
    exact List.map_congr_left (fun s _ => hpt s)
  · intro x hx
    unfold convert_to_16bit at hx
    obtain ⟨s, _, rfl⟩ := List.mem_map.mp hx
    rw [hpt s]
    exact truncQ_clamp_bounds s

/-- Witness for C9 at the one-sample buffer `[2]`: the sample clamps to 1 and
converts to 32767, which satisfies both bounds. -/
theorem c9_witness :
    convert_to_16bit [2] =
      ([2] : List ℚ).map (fun s => truncQ (rustClamp s (-1) 1 * 32767)) ∧
    (-32767 ≤ (32767 : ℤ) ∧ (32767 : ℤ) ≤ 32767) :=
  ⟨(c9_convert_to_16bit_truncates [2]).1,
    (c9_convert_to_16bit_truncates [2]).2 32767 (by
      have h : convert_to_16bit [2] = [32767] := by
        norm_num [convert_to_16bit, f64_to_i16, rustClamp, truncQ]
      rw [h]
      simp)⟩

/-- C8: `mix_waveforms` of a non-empty family of equal-length buffers is the
elementwise arithmetic mean, and the empty family yields the empty buffer. -/
theorem c8_mix_waveforms_mean :
    mix_waveforms [] = [] ∧
    ∀ (waveforms : List (List ℚ)) (n : ℕ),
      waveforms ≠ [] → (∀ w ∈ waveforms, w.length = n) →
      mix_waveforms waveforms =
        (List.range n).map (fun i =>
          (waveforms.map (fun w => w.getD i 0)).sum / (waveforms.length : ℚ)) := by
  constructor
  · rfl
  · intro ws n hne hall
    unfold mix_waveforms
    rw [if_neg hne]
    simp only []
    rw [foldr_max_all_eq ws n hne hall]
    apply List.map_congr_left
    intro i hi
    have hi2 : i < n := List.mem_range.mp hi
    congr 1
    congr 1
    apply List.map_congr_left
    intro w hw
    rw [if_pos (show i < w.length by rw [hall w hw]; exact hi2)]

/-- Witness for C8: mixing `[3]` with two all-zero one-sample buffers. -/
theorem c8_witness :
    mix_waveforms [[3], [0], [0]] =
      (List.range 1).map (fun i =>
        (([[3], [0], [0]] : List (List ℚ)).map (fun w => w.getD i 0)).sum /
          (([[3], [0], [0]] : List (List ℚ)).length : ℚ)) :=
  c8_mix_waveforms_mean.2 [[3], [0], [0]] 1 (by decide) (by decide)

/-- C7: `generate_noise` is deterministic — identical parameters give identical
output — and, because the register is re-seeded to 1 on every call, a shorter
call produces exactly the first samples of any longer call with the same mode. -/
theorem c7_noise_deterministic :
    ∀ (is_short : Bool) (sample_rate : ℕ) (d1 d2 : ℚ),
      (d1 = d2 →
        generate_noise is_short sample_rate d1 =
          generate_noise is_short sample_rate d2) ∧
      (d1 ≤ d2 →
        generate_noise is_short sample_rate d1 =
          (generate_noise is_short sample_rate d2).take
            (f64_to_usize ((sample_rate : ℚ) * d1))) := by
  intro is_s r d1 d2
  constructor
  · intro h
    rw [h]
  · intro h
    have hmul : (r : ℚ) * d1 ≤ (r : ℚ) * d2 :=
      mul_le_mul_of_nonneg_left h (by positivity)
    have hmono : f64_to_usize ((r : ℚ) * d1) ≤ f64_to_usize ((r : ℚ) * d2) := by
      unfold f64_to_usize
      exact Int.toNat_le_toNat (Int.floor_le_floor hmul)
    unfold generate_noise
    exact (noise_go_take is_s (f64_to_usize ((r : ℚ) * d1))
      (f64_to_usize ((r : ℚ) * d2)) 1 hmono).symm

/-- Witness for C7: a half-second call at rate 4 is the 2-sample head of the
one-second call. -/
theorem c7_witness :
    generate_noise false 4 (1 / 2) =
      (generate_noise false 4 1).take (f64_to_usize ((4 : ℚ) * (1 / 2))) :=
  (c7_noise_deterministic false 4 (1 / 2) 1).2 (by norm_num)

/-- C6: `generate_square_wave` yields `floor(rate * duration)` samples; sample
`i` is `+1` exactly when `(i / rate * frequency) mod 1` is below the duty
fraction, and every sample is `+1` or `-1`. -/
theorem c6_square_wave_samples :
    ∀ (frequency : ℚ) (duty : DutyCycle) (sample_rate : ℕ) (duration : ℚ),
      0 ≤ duration →
      (generate_square_wave frequency duty sample_rate duration).length =
          (⌊(sample_rate : ℚ) * duration⌋).toNat ∧
      (∀ i, i < (⌊(sample_rate : ℚ) * duration⌋).toNat →
        (generate_square_wave frequency duty sample_rate duration).getD i 0 =
          if rustMod1 ((i : ℚ) / (sample_rate : ℚ) * frequency) < duty.value then 1
          else -1) ∧
      (∀ s ∈ generate_square_wave frequency duty sample_rate duration,
        s = 1 ∨ s = -1) := by
  intro f duty r t ht
  refine ⟨?_, ?_, ?_⟩
  · simp only [generate_square_wave, f64_to_usize, List.length_map, List.length_range]
  · intro i hi
    simp only [generate_square_wave, f64_to_usize] at hi ⊢
    rw [List.getD_eq_getElem?_getD, List.getElem?_map, List.getElem?_range hi]
    simp
  · intro s hs
    simp only [generate_square_wave, List.mem_map] at hs
    obtain ⟨i, _, rfl⟩ := hs
    split_ifs <;> simp

/-- Witness for C6 at frequency 1, duty 50%, rate 4, duration 1. -/
theorem c6_witness :
    (generate_square_wave 1 DutyCycle.duty50 4 1).length = (⌊(4 : ℚ) * 1⌋).toNat ∧
    (∀ i, i < (⌊(4 : ℚ) * 1⌋).toNat →
      (generate_square_wave 1 DutyCycle.duty50 4 1).getD i 0 =
        if rustMod1 ((i : ℚ) / (4 : ℚ) * 1) < DutyCycle.duty50.value then 1
        else -1) ∧
    (∀ s ∈ generate_square_wave 1 DutyCycle.duty50 4 1, s = 1 ∨ s = -1) :=
  c6_square_wave_samples 1 DutyCycle.duty50 4 1 (by norm_num)

/-- C3: every emitted `Note` has strictly positive duration, and a track with
`NoteOn(0,60)@0`, `NoteOn(0,60)@10`, `NoteOff(0,60)@20` (absolute ticks)
produces exactly one note whose start corresponds to tick 10 — the second
NoteOn silently replaced the first. -/
theorem c3_overwrite_and_positive_duration :
    (∀ (midi_file : MidiFile) (tempo : ℚ),
      ∀ nt ∈ events_to_notes midi_file tempo, 0 < nt.duration) ∧
    (∀ (fmt tc tpq : ℕ) (tempo : ℚ) (v1 v2 : ℕ), 0 < tpq → 0 < tempo →
      events_to_notes
        (MidiFile.mk fmt tc tpq
          [MidiTrack.mk [MidiEvent.noteOn 0 60 v1 0, MidiEvent.noteOn 0 60 v2 10,
            MidiEvent.noteOff 0 60 10]]) tempo =
        [Note.mk 60 0 (ticks_to_seconds tpq tempo 10)
          (ticks_to_seconds tpq tempo 20 - ticks_to_seconds tpq tempo 10) v2]) := by
  constructor
  · intro midi tempo nt hnt
    unfold events_to_notes at hnt
    exact foldl_tracks_duration_pos midi.ticks_per_quarter tempo midi.tracks
      ((fun _ => none), []) (by simp) nt hnt
  · intro fmt tc tpq tempo v1 v2 htpq htempo
    have hpos : 0 < ticks_to_seconds tpq tempo 20 - ticks_to_seconds tpq tempo 10 := by
      have := ticks_to_seconds_lt tpq tempo 10 20 htpq htempo (by omega)
      linarith
    simp only [events_to_notes, List.foldl_cons, List.foldl_nil, events_to_notes_step]
    norm_num
    exact ticks_to_seconds_lt tpq tempo 10 20 htpq htempo (by omega)

/-- Witness for C3: with 1 tick per quarter at tempo 60 the surviving note
starts at second 10 and lasts 10 seconds. -/
theorem c3_witness :
    (0 : ℚ) < (Note.mk 60 0 10 10 90).duration ∧
    events_to_notes
      (MidiFile.mk 0 1 1
        [MidiTrack.mk [MidiEvent.noteOn 0 60 100 0, MidiEvent.noteOn 0 60 90 10,
          MidiEvent.noteOff 0 60 10]]) 60 = [Note.mk 60 0 10 10 90] := by
  have h := c3_overwrite_and_positive_duration.2 0 1 1 60 100 90 (by norm_num) (by norm_num)
  have e1 : ticks_to_seconds 1 60 10 = 10 := by norm_num [ticks_to_seconds]
  have e2 : ticks_to_seconds 1 60 20 = 20 := by norm_num [ticks_to_seconds]
  rw [e1, e2] at h
  norm_num at h
  refine ⟨by norm_num, h⟩

/-- C1 counterexample: a NoteOn left unmatched at the end of the first track is
closed by a NoteOff in the second track (shared pending map), producing a note
— the claim predicts it would be dropped and no note emitted. -/
theorem c1_counterexample :
    events_to_notes
      (MidiFile.mk 0 2 1
        [MidiTrack.mk [MidiEvent.noteOn 0 60 100 0],
         MidiTrack.mk [MidiEvent.noteOff 0 60 5]]) 60 =
      [Note.mk 60 0 0 5 100] := by
  norm_num [events_to_notes, events_to_notes_step, ticks_to_seconds]

/-- C1 amended: the pending-note map is shared across the whole file (only the
tick counter restarts per track): a NoteOn unmatched at the end of its track is
closed by a matching NoteOff in a later track (each on its own track clock),
and only a NoteOn still unmatched at the end of the whole file is dropped. -/
theorem c1_amended_shared_pending_map :
    (∀ (fmt tc tpq : ℕ) (tempo : ℚ) (channel note velocity t1 t2 : ℕ),
      0 < tpq → 0 < tempo → t1 < t2 → t2 < 2 ^ 32 →
      events_to_notes
        (MidiFile.mk fmt tc tpq
          [MidiTrack.mk [MidiEvent.noteOn channel note velocity t1],
           MidiTrack.mk [MidiEvent.noteOff channel note t2]]) tempo =
        [Note.mk note channel (ticks_to_seconds tpq tempo t1)
          (ticks_to_seconds tpq tempo t2 - ticks_to_seconds tpq tempo t1) velocity]) ∧
    (∀ (fmt tc tpq : ℕ) (tempo : ℚ) (channel note velocity t : ℕ),
      events_to_notes
        (MidiFile.mk fmt tc tpq
          [MidiTrack.mk [MidiEvent.noteOn channel note velocity t]]) tempo = []) := by
  constructor
  · intro fmt tc tpq tempo channel note velocity t1 t2 htpq htempo ht hlt
    have e1 : t1 % 2 ^ 32 = t1 := Nat.mod_eq_of_lt (by omega)
    have e2 : t2 % 2 ^ 32 = t2 := Nat.mod_eq_of_lt hlt
    have hpos : 0 < ticks_to_seconds tpq tempo t2 - ticks_to_seconds tpq tempo t1 := by
      have := ticks_to_seconds_lt tpq tempo t1 t2 htpq htempo ht
      linarith
    simp only [events_to_notes, List.foldl_cons, List.foldl_nil, events_to_notes_step,
      Nat.zero_add, e1, e2]
    norm_num [e1, e2]
    exact ticks_to_seconds_lt tpq tempo t1 t2 htpq htempo ht
  · intro fmt tc tpq tempo channel note velocity t
    simp [events_to_notes, events_to_notes_step]

/-- Witness for C1's amended statement: the cross-track pairing at concrete
parameters, and the dropped trailing NoteOn for a single-track file. -/
theorem c1_witness :
    events_to_notes
      (MidiFile.mk 0 2 1
        [MidiTrack.mk [MidiEvent.noteOn 3 72 100 2],
         MidiTrack.mk [MidiEvent.noteOff 3 72 7]]) 60 =
      [Note.mk 72 3 (ticks_to_seconds 1 60 2)
        (ticks_to_seconds 1 60 7 - ticks_to_seconds 1 60 2) 100] ∧
    events_to_notes
      (MidiFile.mk 0 1 96 [MidiTrack.mk [MidiEvent.noteOn 0 60 100 0]]) 120 = [] :=
  ⟨c1_amended_shared_pending_map.1 0 2 1 60 3 72 100 2 7
      (by norm_num) (by norm_num) (by norm_num) (by norm_num),
   c1_amended_shared_pending_map.2 0 1 96 120 0 60 100 0⟩

/-- C2 counterexample: in `sample_midi_bytes` the second track region (offset
22) is perfectly well-formed — `read_midi_track` succeeds on it standalone —
yet after the first track fails, `read_midi_file` ends with no tracks at all:
the loop never advances past the bad track, so the subsequent valid track is
not parsed, contradicting the claim. -/
theorem c2_counterexample :
    read_midi_track sample_midi_bytes 22 =
      PResult.ok (MidiTrack.mk [MidiEvent.noteOn 0 60 100 0], 34) ∧
    read_midi_file_bytes sample_midi_bytes =
      PResult.ok (MidiFile.mk 0 2 96 []) :=
  ⟨read_midi_track_sample_22, by decide⟩

/-- C2 amended: for buffers with at least the 14 header bytes, header parsing
errors exactly when the magic is not "MThd" or the length field is not 6; a
header error is fatal for the whole conversion; and when one track read fails,
that track is omitted and the loop continues, but the cursor does not advance,
so every remaining track read fails identically and contributes nothing. -/
theorem c2_amended_error_policy :
    (∀ data : List ℕ, 14 ≤ data.length →
      ((∃ e, read_midi_header data 0 = PResult.err e) ↔
        (data.take 4 ≠ [0x4D, 0x54, 0x68, 0x64] ∨
          data.getD 4 0 * 2 ^ 24 + data.getD 5 0 * 2 ^ 16 +
            data.getD 6 0 * 2 ^ 8 + data.getD 7 0 ≠ 6))) ∧
    (∀ (data : List ℕ) (e : String),
      read_midi_header data 0 = PResult.err e →
      read_midi_file_bytes data = PResult.err e) ∧
    (∀ (data : List ℕ) (pos n : ℕ) (e : String),
      read_midi_track data pos = PResult.err e →
      read_tracks data pos n = PResult.ok ([], pos)) := by
  refine ⟨?_, ?_, ?_⟩
  · intro data hlen
    rw [read_midi_header]
    rw [if_neg (by omega)]
    simp only [List.drop_zero]
    have hbe32 : read_be_u32 data 4 = some (data.getD 4 0 * 2 ^ 24 +
        data.getD 5 0 * 2 ^ 16 + data.getD 6 0 * 2 ^ 8 + data.getD 7 0, 8) := by
      rw [read_be_u32, if_pos (by omega)]
    by_cases hm : data.take 4 = [0x4D, 0x54, 0x68, 0x64]
    · rw [if_neg (not_ne_iff.mpr hm)]
      rw [hbe32]
      simp only []
      by_cases hv : data.getD 4 0 * 2 ^ 24 + data.getD 5 0 * 2 ^ 16 +
          data.getD 6 0 * 2 ^ 8 + data.getD 7 0 = 6
      · rw [if_neg (not_ne_iff.mpr hv)]
        rw [read_be_u16, if_pos (by omega)]
        simp only []
        rw [read_be_u16, if_pos (by omega)]
        simp only []
        rw [read_be_u16, if_pos (by omega)]
        simp only []
        constructor
        · rintro ⟨e, he⟩
          exact absurd he (by simp)
        · intro h
          rcases h with h | h
          · exact absurd hm h
          · exact absurd hv h
      · rw [if_pos hv]
        exact ⟨fun _ => Or.inr hv, fun _ => ⟨_, rfl⟩⟩
    · rw [if_pos hm]
      exact ⟨fun _ => Or.inl hm, fun _ => ⟨_, rfl⟩⟩
  · intro data e h
    unfold read_midi_file_bytes
    rw [h]
  · intro data pos n e h
    induction n with
    | zero => rfl
    | succ n ih =>
        rw [read_tracks]
        rw [h]
        simp only []
        rw [ih]

/-- Witness for C2's amended statement: a 14-byte all-zero buffer fails the
magic check with an error (not a panic), and after the failing track at offset
14 of `sample_midi_bytes`, both remaining track attempts yield nothing and
leave the cursor at 14. -/
theorem c2_witness :
    (∃ e, read_midi_header (List.replicate 14 0) 0 = PResult.err e) ∧
    read_tracks sample_midi_bytes 14 2 = PResult.ok ([], 14) :=
  ⟨(c2_amended_error_policy.1 (List.replicate 14 0) (by decide)).mpr
      (Or.inl (by decide)),
    c2_amended_error_policy.2.2 sample_midi_bytes 14 2 "Invalid MIDI track header"
      (by decide)⟩
